import Mathlib

/-!
Shallow embedding of the geometry-to-ranking pipeline of
src/suspension_analyzer.py: the damper-length calculator, the ranking
engine, the combination expander and the greedy assignment optimizer.
Coordinates, lengths, ranks and weights are modelled as rationals;
center-section and clip identifiers as strings. Machine floats are
modelled by ℚ: every claim below depends only on field arithmetic and
order, never on rounding.
-/

namespace TrkChassis

/-! ### Geometry engine -/

/-- A 3D point with rational coordinates. -/
structure Point3 where
  x : ℚ
  y : ℚ
  z : ℚ
  deriving DecidableEq

/-- Midpoint of the LCA front and rear pivots, computed componentwise as
in lines 466-480 and 605-643 of the source: (front + rear) / 2. -/
def lcaCenter (front rear : Point3) : Point3 :=
  ⟨(front.x + rear.x) / 2, (front.y + rear.y) / 2, (front.z + rear.z) / 2⟩

/-- Lower mount for a left corner (LF, LR): y shifted by minus the
absolute offset, x and z taken from the LCA center (lines 500-502,
534-536, 608-610, 632-634; the source applies np.abs to the offset). -/
def lowerMountLeft (center : Point3) (off : ℚ) : Point3 :=
  ⟨center.x, center.y - |off|, center.z⟩

/-- Lower mount for a right corner (RF, RR): y shifted by plus the
absolute offset (lines 509-511, 559-561, 620-622, 644-646). -/
def lowerMountRight (center : Point3) (off : ℚ) : Point3 :=
  ⟨center.x, center.y + |off|, center.z⟩

/-- The four configured y-offset magnitudes (config keys lf_y_offset,
rf_y_offset, lr_y_offset, rr_y_offset). -/
structure Offsets where
  lf : ℚ
  rf : ℚ
  lr : ℚ
  rr : ℚ
  deriving DecidableEq

/-- pandas Series.median on a column: sort ascending, take the middle
element for odd length, the mean of the two middle elements for even
length. The empty case (NaN in pandas) is unreachable in the modelled
flow and defaults to 0. -/
def medianQ (l : List ℚ) : ℚ :=
  let s := List.insertionSort (· ≤ ·) l
  if l.length % 2 = 1 then s.getD (l.length / 2) 0
  else (s.getD (l.length / 2 - 1) 0 + s.getD (l.length / 2) 0) / 2

/-! ### Damper length calculator: single-sheet branch (lines 600-650) -/

/-- One row of the single-sheet survey table, with its column mapping
already resolved: per corner the upper mount and the two LCA pivots. -/
structure SingleRow where
  centerSection : String
  clip : String
  lfUpper : Point3
  lfLcaFront : Point3
  lfLcaRear : Point3
  rfUpper : Point3
  rfLcaFront : Point3
  rfLcaRear : Point3
  lrUpper : Point3
  lrLcaFront : Point3
  lrLcaRear : Point3
  rrUpper : Point3
  rrLcaFront : Point3
  rrLcaRear : Point3
  deriving DecidableEq

def singleLfCenter (r : SingleRow) : Point3 := lcaCenter r.lfLcaFront r.lfLcaRear
def singleRfCenter (r : SingleRow) : Point3 := lcaCenter r.rfLcaFront r.rfLcaRear
def singleLrCenter (r : SingleRow) : Point3 := lcaCenter r.lrLcaFront r.lrLcaRear
def singleRrCenter (r : SingleRow) : Point3 := lcaCenter r.rrLcaFront r.rrLcaRear

/-- LCA centers of the whole single-sheet working set, per row, corners
in LF, RF, LR, RR order. The normalize_lca_z flag is read from the
config (line 453) but the single-sheet branch (lines 600-650) contains
no normalization block, so the parameter is not consulted. -/
def singleSheetCenters (normalizeLcaZ : Bool) (rows : List SingleRow) :
    List (Point3 × Point3 × Point3 × Point3) :=
  rows.map (fun r => (singleLfCenter r, singleRfCenter r, singleLrCenter r, singleRrCenter r))

/-- All LCA center z values of a single-sheet working set, all records,
corners concatenated in LF, RF, LR, RR order: the population whose
median the normalize_z option is documented to install. -/
def singleSheetAllZ (rows : List SingleRow) : List ℚ :=
  rows.map (fun r => (singleLfCenter r).z) ++ rows.map (fun r => (singleRfCenter r).z)
    ++ rows.map (fun r => (singleLrCenter r).z) ++ rows.map (fun r => (singleRrCenter r).z)

/-- Single-sheet lower mounts (lines 605-650): left corners minus the
absolute offset, right corners plus. -/
def singleLowerLF (off : Offsets) (r : SingleRow) : Point3 := lowerMountLeft (singleLfCenter r) off.lf
def singleLowerRF (off : Offsets) (r : SingleRow) : Point3 := lowerMountRight (singleRfCenter r) off.rf
def singleLowerLR (off : Offsets) (r : SingleRow) : Point3 := lowerMountLeft (singleLrCenter r) off.lr
def singleLowerRR (off : Offsets) (r : SingleRow) : Point3 := lowerMountRight (singleRrCenter r) off.rr

/-! ### Damper length calculator: multi-sheet branch (lines 460-598) -/

/-- One resolved row of the front sheet: LF and RF hardpoints. -/
structure FrontRow where
  centerSection : String
  clip : String
  lfUpper : Point3
  lfLcaFront : Point3
  lfLcaRear : Point3
  rfUpper : Point3
  rfLcaFront : Point3
  rfLcaRear : Point3
  deriving DecidableEq

/-- One resolved row of the rear sheet: LR and RR hardpoints. -/
structure RearRow where
  centerSection : String
  clip : String
  lrUpper : Point3
  lrLcaFront : Point3
  lrLcaRear : Point3
  rrUpper : Point3
  rrLcaFront : Point3
  rrLcaRear : Point3
  deriving DecidableEq

/-- The per-corner LCA center columns of the multi-sheet branch:
lf and rf indexed by front rows, lr and rr by rear rows. -/
structure MultiCenters where
  lf : List Point3
  rf : List Point3
  lr : List Point3
  rr : List Point3
  deriving DecidableEq

/-- Raw LCA centers (lines 466-480), before any normalization. -/
def multiRawCenters (fronts : List FrontRow) (rears : List RearRow) : MultiCenters where
  lf := fronts.map (fun r => lcaCenter r.lfLcaFront r.lfLcaRear)
  rf := fronts.map (fun r => lcaCenter r.rfLcaFront r.rfLcaRear)
  lr := rears.map (fun r => lcaCenter r.lrLcaFront r.lrLcaRear)
  rr := rears.map (fun r => lcaCenter r.rrLcaFront r.rrLcaRear)

/-- The z column concatenation of lines 485: pd.concat in LF, RF, LR,
RR order. -/
def multiAllZ (c : MultiCenters) : List ℚ :=
  c.lf.map Point3.z ++ c.rf.map Point3.z ++ c.lr.map Point3.z ++ c.rr.map Point3.z

/-- LCA centers of the multi-sheet branch after the optional
normalization pre-pass (lines 482-494): when the flag is set, every
z across all four corner columns is overwritten with the single global
median of the raw z values, before any lower mount is formed. -/
def multiCenters (normalizeLcaZ : Bool) (fronts : List FrontRow) (rears : List RearRow) :
    MultiCenters :=
  let c := multiRawCenters fronts rears
  if normalizeLcaZ then
    let m := medianQ (multiAllZ c)
    { lf := c.lf.map (fun p => ⟨p.x, p.y, m⟩)
      rf := c.rf.map (fun p => ⟨p.x, p.y, m⟩)
      lr := c.lr.map (fun p => ⟨p.x, p.y, m⟩)
      rr := c.rr.map (fun p => ⟨p.x, p.y, m⟩) }
  else c

/-- Multi-sheet lower mount columns (lines 500-565), formed from the
possibly normalized centers. -/
def multiLowerLF (normalizeLcaZ : Bool) (fronts : List FrontRow) (rears : List RearRow)
    (off : Offsets) : List Point3 :=
  (multiCenters normalizeLcaZ fronts rears).lf.map (fun c => lowerMountLeft c off.lf)

def multiLowerRF (normalizeLcaZ : Bool) (fronts : List FrontRow) (rears : List RearRow)
    (off : Offsets) : List Point3 :=
  (multiCenters normalizeLcaZ fronts rears).rf.map (fun c => lowerMountRight c off.rf)

def multiLowerLR (normalizeLcaZ : Bool) (fronts : List FrontRow) (rears : List RearRow)
    (off : Offsets) : List Point3 :=
  (multiCenters normalizeLcaZ fronts rears).lr.map (fun c => lowerMountLeft c off.lr)

def multiLowerRR (normalizeLcaZ : Bool) (fronts : List FrontRow) (rears : List RearRow)
    (off : Offsets) : List Point3 :=
  (multiCenters normalizeLcaZ fronts rears).rr.map (fun c => lowerMountRight c off.rr)

/-! ### Ranking engine (lines 655-664, 839-842, 1567-1575) -/

/-- Embeds pandas Series.rank(ascending := False, method := min)
followed by astype(int): the rank of a value within its column is one
plus the number of entries strictly greater (the tied group shares the
minimal ordinal position). Larger damper length means better, rank 1. -/
def rankMinDesc {α : Type} [LinearOrder α] (values : List α) (v : α) : ℕ :=
  1 + values.countP (fun w => decide (v < w))

/-- Embeds pandas Series.rank(method := min) ascending, as applied to
the weighted score columns: lower score means better, rank 1. -/
def rankMinAsc {α : Type} [LinearOrder α] (values : List α) (v : α) : ℕ :=
  1 + values.countP (fun w => decide (w < v))

/-- A row of the single-sheet results_df once the four damper length
columns exist (line 653; the euclidean lengths themselves are opaque
rationals here, since every ranking claim depends only on their order). -/
structure SingleResultRow where
  centerSection : String
  clip : String
  lfLen : ℚ
  rfLen : ℚ
  lrLen : ℚ
  rrLen : ℚ
  deriving DecidableEq

/-- LF_Rank column (line 656). -/
def lfRankS (rows : List SingleResultRow) (r : SingleResultRow) : ℕ :=
  rankMinDesc (rows.map SingleResultRow.lfLen) r.lfLen

/-- RF_Rank column (line 657). -/
def rfRankS (rows : List SingleResultRow) (r : SingleResultRow) : ℕ :=
  rankMinDesc (rows.map SingleResultRow.rfLen) r.rfLen

/-- LR_Rank column (line 658). -/
def lrRankS (rows : List SingleResultRow) (r : SingleResultRow) : ℕ :=
  rankMinDesc (rows.map SingleResultRow.lrLen) r.lrLen

/-- RR_Rank column (line 659). -/
def rrRankS (rows : List SingleResultRow) (r : SingleResultRow) : ℕ :=
  rankMinDesc (rows.map SingleResultRow.rrLen) r.rrLen

/-- Front_Weighted_Score column (line 663): LF rank doubled plus RF rank. -/
def frontWeightedScoreS (rows : List SingleResultRow) (r : SingleResultRow) : ℕ :=
  lfRankS rows r * 2 + rfRankS rows r * 1

/-- Front_Rank column (line 664): ascending min-rank of the weighted score. -/
def frontRankS (rows : List SingleResultRow) (r : SingleResultRow) : ℕ :=
  rankMinAsc (rows.map (frontWeightedScoreS rows)) (frontWeightedScoreS rows r)

/-- Arithmetic mean of a rational column, as pandas agg mean. -/
def meanQ (l : List ℚ) : ℚ := l.sum / l.length

/-- Single-sheet center-section rollup of the rear ranks
(lines 1007-1018): the code groups by center section, averages LR_Rank
and RR_Rank, and sets the Rear_Rank column of the rollup to the plain
average of those two means. No per-record rear weighted score exists in
this mode. -/
def centerRearRankSingle (rows : List SingleResultRow) (cs : String) : ℚ :=
  let grp := rows.filter (fun r => r.centerSection == cs)
  (meanQ (grp.map (fun r => ((lrRankS rows r : ℕ) : ℚ)))
    + meanQ (grp.map (fun r => ((rrRankS rows r : ℕ) : ℚ)))) / 2

/-- Modelled from the words of the spec, for comparison only: the
claimed per-record rear weighted score in single-sheet mode,
2 times LR_rank plus 1 times RR_rank. -/
def claimedRearWeightedScoreS (rows : List SingleResultRow) (r : SingleResultRow) : ℕ :=
  2 * lrRankS rows r + 1 * rrRankS rows r

/-- Modelled from the words of the spec, for comparison only: the
claimed per-record rear rank in single-sheet mode, the ascending
min-method re-rank of the claimed rear weighted score. -/
def claimedRearRankS (rows : List SingleResultRow) (r : SingleResultRow) : ℕ :=
  rankMinAsc (rows.map (claimedRearWeightedScoreS rows)) (claimedRearWeightedScoreS rows r)

/-! ### Multi-sheet per-sheet rank columns (lines 1563-1575) -/

/-- A front sheet row once LF and RF damper lengths exist. -/
structure FrontCalcRow where
  centerSection : String
  clip : String
  lfLen : ℚ
  rfLen : ℚ
  deriving DecidableEq

/-- A rear sheet row once LR and RR damper lengths exist. -/
structure RearCalcRow where
  centerSection : String
  clip : String
  lrLen : ℚ
  rrLen : ℚ
  deriving DecidableEq

/-- LF_Rank over the front sheet (line 1567). -/
def lfRankF (rows : List FrontCalcRow) (r : FrontCalcRow) : ℕ :=
  rankMinDesc (rows.map FrontCalcRow.lfLen) r.lfLen

/-- RF_Rank over the front sheet (line 1568). -/
def rfRankF (rows : List FrontCalcRow) (r : FrontCalcRow) : ℕ :=
  rankMinDesc (rows.map FrontCalcRow.rfLen) r.rfLen

/-- Front_Weighted_Score over the front sheet (line 1569). -/
def frontWeightedScoreF (rows : List FrontCalcRow) (r : FrontCalcRow) : ℕ :=
  lfRankF rows r * 2 + rfRankF rows r * 1

/-- Front_Rank over the front sheet (line 1570). -/
def frontRankF (rows : List FrontCalcRow) (r : FrontCalcRow) : ℕ :=
  rankMinAsc (rows.map (frontWeightedScoreF rows)) (frontWeightedScoreF rows r)

/-- LR_Rank over the rear sheet (lines 839, 1572). -/
def lrRankR (rows : List RearCalcRow) (r : RearCalcRow) : ℕ :=
  rankMinDesc (rows.map RearCalcRow.lrLen) r.lrLen

/-- RR_Rank over the rear sheet (lines 840, 1573). -/
def rrRankR (rows : List RearCalcRow) (r : RearCalcRow) : ℕ :=
  rankMinDesc (rows.map RearCalcRow.rrLen) r.rrLen

/-- Rear_Weighted_Score over the rear sheet (lines 841, 1574): LR rank
doubled plus RR rank. -/
def rearWeightedScoreR (rows : List RearCalcRow) (r : RearCalcRow) : ℕ :=
  lrRankR rows r * 2 + rrRankR rows r * 1

/-- Rear_Rank over the rear sheet (lines 842, 1575): ascending min-rank
of Rear_Weighted_Score. -/
def rearRankR (rows : List RearCalcRow) (r : RearCalcRow) : ℕ :=
  rankMinAsc (rows.map (rearWeightedScoreR rows)) (rearWeightedScoreR rows r)

/-- The mirror translation of a rear sheet row into the shape of a
front sheet row: LR plays the role of LF and RR the role of RF. Used
to state that the rear rollup mirrors the front rollup exactly. -/
def rearToFront (r : RearCalcRow) : FrontCalcRow :=
  ⟨r.centerSection, r.clip, r.lrLen, r.rrLen⟩

/-! ### Assignment optimizer (lines 1556-1670) -/

/-- One row of a per-axle rank table as consumed by the optimizer:
rankA is LF_Rank for the front table and LR_Rank for the rear table,
rankB is RF_Rank respectively RR_Rank. The source looks these up as
numeric values, so they are kept as rationals here. -/
structure RankRow where
  centerSection : String
  clip : String
  rankA : ℚ
  rankB : ℚ
  deriving DecidableEq

/-- df[(df[center] == cs) & (df[clip] == c)].iloc[0], returning the two
rank cells of the first matching row, or none when the filter is empty
(the len(rows) == 0 continue branches at lines 1610 and 1625). -/
def lookupRanks (table : List RankRow) (cs clip : String) : Option (ℚ × ℚ) :=
  match table.find? (fun row => row.centerSection == cs && row.clip == clip) with
  | none => none
  | some row => some (row.rankA, row.rankB)

/-- sorted(column.unique()): first-occurrence deduplication followed by
an ascending sort (lines 1559, 1577, 1578). -/
def sortedUnique (l : List String) : List String :=
  List.insertionSort (· ≤ ·) l.dedup

/-- The captured inputs of calculate_optimal_assignments: the sorted
unique center sections and clip lists and the two per-axle rank tables. -/
structure OptInputs where
  centerSections : List String
  frontClips : List String
  rearClips : List String
  frontTable : List RankRow
  rearTable : List RankRow

/-- Corner weight percentages as entered in the four number inputs. -/
structure Weights where
  lf : ℚ
  rf : ℚ
  lr : ℚ
  rr : ℚ
  deriving DecidableEq

/-- The combined score of line 1632: each corner rank times its weight
divided by 100. -/
def comboScore (w : Weights) (lfR rfR lrR rrR : ℚ) : ℚ :=
  lfR * w.lf / 100 + rfR * w.rf / 100 + lrR * w.lr / 100 + rrR * w.rr / 100

/-- A candidate pairing considered by the nested loops, with its score. -/
structure Cand where
  front : String
  rear : String
  score : ℚ
  deriving DecidableEq

/-- The running best of lines 1635-1638: update only on a strictly
smaller score, so the first candidate attaining the minimum is kept.
The none accumulator is the initial best_score = float(inf) state. -/
def updBest (best : Option Cand) (c : Cand) : Option Cand :=
  match best with
  | none => some c
  | some b => if c.score < b.score then some c else some b

/-- The flattening of the two nested candidate loops of lines
1602-1633: front clips in list order, skipping used ones and those with
no rank row at this center section, then for each, rear clips in list
order under the same two filters, each surviving pair scored. The
nested for loops visit exactly this list in this order. -/
def candList (inp : OptInputs) (w : Weights) (cs : String)
    (usedF usedR : List String) : List Cand :=
  inp.frontClips.flatMap (fun f =>
    if usedF.contains f then []
    else match lookupRanks inp.frontTable cs f with
      | none => []
      | some (lfR, rfR) =>
        inp.rearClips.filterMap (fun r =>
          if usedR.contains r then none
          else match lookupRanks inp.rearTable cs r with
            | none => none
            | some (lrR, rrR) => some ⟨f, r, comboScore w lfR rfR lrR rrR⟩))

/-- The value of (best_score, best_front, best_rear) after the nested
loops for one center section: the strict-improvement fold over the
candidates in nested iteration order. -/
def bestPairFor (inp : OptInputs) (w : Weights) (cs : String)
    (usedF usedR : List String) : Option Cand :=
  (candList inp w cs usedF usedR).foldl updBest none

/-- One committed entry of center_best_combos: none in the score field
encodes the float(inf) sentinel recorded by the fallback. -/
structure Combo where
  center : String
  frontClip : String
  rearClip : String
  score : Option ℚ
  deriving DecidableEq

/-- The loop state: the committed combos so far and the two used-clip
sets (kept as lists; only membership is ever queried). -/
structure OptState where
  combos : List Combo
  usedFront : List String
  usedRear : List String
  deriving DecidableEq

/-- next((c for c in clips if c not in used), clips[0]) of lines
1652-1653: the first unused clip in list order, or the first clip of
the list when every clip is used. An empty clip list would raise in
Python and is unreachable from a nonempty working set; it defaults to
the empty string here. -/
def fallbackClip (clips : List String) (used : List String) : String :=
  match clips.filter (fun c => !used.contains c) with
  | [] => clips.headD ""
  | c :: _ => c

/-- The fallback branch of lines 1650-1661: commit the first unused
clip of each axle (reusing the globally first clip when all are used),
record the infinite score sentinel, and mark both used. -/
def fallbackStep (inp : OptInputs) (st : OptState) (cs : String) : OptState :=
  let f := fallbackClip inp.frontClips st.usedFront
  let r := fallbackClip inp.rearClips st.usedRear
  { combos := st.combos ++ [⟨cs, f, r, none⟩]
    usedFront := st.usedFront ++ [f]
    usedRear := st.usedRear ++ [r] }

/-- Processing of one center section (lines 1596-1661). The commit
guard is the Python truthiness test if best_front and best_rear: the
None produced when no candidate exists is falsy, and so is the empty
string, so a best pair whose clip name is empty also falls through to
the fallback. -/
def stepCenter (inp : OptInputs) (w : Weights) (st : OptState) (cs : String) : OptState :=
  match bestPairFor inp w cs st.usedFront st.usedRear with
  | some b =>
    if b.front ≠ "" ∧ b.rear ≠ "" then
      { combos := st.combos ++ [⟨cs, b.front, b.rear, some b.score⟩]
        usedFront := st.usedFront ++ [b.front]
        usedRear := st.usedRear ++ [b.rear] }
    else fallbackStep inp st cs
  | none => fallbackStep inp st cs

/-- calculate_optimal_assignments (lines 1590-1670): fold over the
center sections starting from empty used sets; the returned assignments
dict is the combos list keyed by center section, one entry per section. -/
def calculateOptimalAssignments (inp : OptInputs) (w : Weights) : List Combo :=
  (inp.centerSections.foldl (stepCenter inp w) ⟨[], [], []⟩).combos

/-! ### The Calculate button gate (lines 1705-1723) -/

/-- The session state touched by the Calculate button of the selector
tab: the saved corner weights and the current lineup assignments. -/
structure SelectorState where
  cornerWeights : Weights
  lineupAssignments : List Combo
  deriving DecidableEq

/-- One press of the Calculate button. When the four weight inputs do
not total 100 within the 0.01 tolerance (line 1709), the button is
rendered disabled, so no recomputation can fire and the session state
is untouched; otherwise the weights are saved as entered (no
renormalization) and the lineup assignments are recomputed from
scratch by calculate_optimal_assignments. -/
def clickCalculate (inp : OptInputs) (st : SelectorState) (lf rf lr rr : ℚ) : SelectorState :=
  let total := lf + rf + lr + rr
  if |total - 100| > 1 / 100 then st
  else
    { cornerWeights := ⟨lf, rf, lr, rr⟩
      lineupAssignments := calculateOptimalAssignments inp ⟨lf, rf, lr, rr⟩ }

/-! ### Combination expander and the recompute session step (lines 571-592, 667-670) -/

/-- A row of the merged multi-sheet results_df: one front clip and one
rear clip sharing a center section, with the four damper lengths. -/
structure MultiResultRow where
  centerSection : String
  frontClip : String
  rearClip : String
  lfLen : ℚ
  rfLen : ℚ
  lrLen : ℚ
  rrLen : ℚ
  deriving DecidableEq

/-- pd.merge(front, rear, on := [center_section], how := inner) of
lines 581-586: every pair of a front row and a rear row sharing the
center section key, in front-major order. -/
def mergeOnCenter (fronts : List FrontCalcRow) (rears : List RearCalcRow) :
    List MultiResultRow :=
  fronts.flatMap (fun f =>
    (rears.filter (fun r => r.centerSection == f.centerSection)).map
      (fun r => ⟨f.centerSection, f.clip, r.clip, f.lfLen, f.rfLen, r.lrLen, r.rrLen⟩))

/-- The session-state slots involved in a multi-sheet recompute: the
ranked working set results_df (line 670) and the two per-sheet
calculated frames stored at lines 568-569. -/
structure Session where
  resultsDf : Option (List MultiResultRow)
  dfFrontCalc : Option (List FrontCalcRow)
  dfRearCalc : Option (List RearCalcRow)
  deriving DecidableEq

/-- The tail of the multi-sheet recompute, from the session stores of
lines 568-569 through the merge and its empty check (lines 581-592) to
the store of results_df (line 670). The optional string is the fatal
error surfaced by st.error before st.stop: when the inner join is
empty the recompute halts there and results_df is never written; the
derived rank columns added to a nonempty merge result are the views
modelled by the ranking engine above. -/
def recomputeMultiMerge (sess : Session) (fronts : List FrontCalcRow)
    (rears : List RearCalcRow) : Session × Option String :=
  let sess1 : Session := { sess with dfFrontCalc := some fronts, dfRearCalc := some rears }
  let merged := mergeOnCenter fronts rears
  if merged.isEmpty then
    (sess1, some "No matching Center Sections found between front and rear sheets!")
  else
    ({ sess1 with resultsDf := some merged }, none)

/-! ### Concrete example inputs used by witnesses and counterexamples -/

/-- Equal corner weights, 25 percent each. -/
def wQuarter : Weights := ⟨25, 25, 25, 25⟩

/-- A run where the only feasible front clip is named by the empty
string: rank data exists for the pair (empty string, R2) only. -/
def exInpEmptyName : OptInputs :=
  { centerSections := ["S"]
    frontClips := [""]
    rearClips := ["R1", "R2"]
    frontTable := [⟨"S", "", 1, 1⟩]
    rearTable := [⟨"S", "R2", 1, 1⟩] }

/-- A run with one clip per axle but two center sections: the second
section exhausts both axles and triggers the reusing fallback. -/
def exInpScarce : OptInputs :=
  { centerSections := ["S1", "S2"]
    frontClips := ["F"]
    rearClips := ["R"]
    frontTable := [⟨"S1", "F", 1, 1⟩, ⟨"S2", "F", 1, 1⟩]
    rearTable := [⟨"S1", "R", 1, 1⟩, ⟨"S2", "R", 1, 1⟩] }

/-- A run with one center section and two front clips of different
quality, so the inner loops must compare scores. -/
def exInpTwoFronts : OptInputs :=
  { centerSections := ["S"]
    frontClips := ["F1", "F2"]
    rearClips := ["R1"]
    frontTable := [⟨"S", "F1", 2, 2⟩, ⟨"S", "F2", 1, 1⟩]
    rearTable := [⟨"S", "R1", 1, 1⟩] }

/-- A run with as many clips per axle as center sections, where the
no-reuse invariant is attainable. -/
def exInpAmple : OptInputs :=
  { centerSections := ["S1", "S2"]
    frontClips := ["F1", "F2"]
    rearClips := ["R1", "R2"]
    frontTable := [⟨"S1", "F1", 1, 1⟩, ⟨"S1", "F2", 2, 2⟩,
      ⟨"S2", "F1", 1, 1⟩, ⟨"S2", "F2", 2, 2⟩]
    rearTable := [⟨"S1", "R1", 1, 1⟩, ⟨"S1", "R2", 2, 2⟩,
      ⟨"S2", "R1", 1, 1⟩, ⟨"S2", "R2", 2, 2⟩] }

/-! ### Helper lemmas on counting -/

/-- Counting a weaker predicate never counts less, and strictly more
when some member satisfies the weak one but not the strong one. -/
theorem countP_lt_countP {α : Type} {l : List α} {p q : α → Bool}
    (himp : ∀ x ∈ l, p x = true → q x = true) {x : α} (hx : x ∈ l)
    (hqx : q x = true) (hpx : p x = false) : l.countP p < l.countP q := by
  induction l with
  | nil => cases hx
  | cons a t ih =>
    rw [List.countP_cons, List.countP_cons]
    rcases List.mem_cons.mp hx with hxa | hxt
    · subst hxa
      have hle : t.countP p ≤ t.countP q :=
        List.countP_mono_left (fun y hy => himp y (List.mem_cons_of_mem _ hy))
      rw [hqx, hpx]
      simpa using Nat.lt_succ_of_le hle
    · have hlt : t.countP p < t.countP q :=
        ih (fun y hy => himp y (List.mem_cons_of_mem _ hy)) hxt
      have hif : (if p a = true then 1 else 0) ≤ (if q a = true then 1 else 0) := by
        by_cases hpa : p a = true
        · rw [hpa, himp a (List.mem_cons_self a t) hpa]
        · simp [hpa]
      omega

/-- Strict rank decrease under a strictly larger value, for the
descending min-method rank. -/
theorem rankMinDesc_strict {α : Type} [LinearOrder α] {values : List α} {a b : α}
    (ha : a ∈ values) (hba : b < a) :
    rankMinDesc values a < rankMinDesc values b := by
  unfold rankMinDesc
  have h := countP_lt_countP (l := values)
    (p := fun w => decide (a < w)) (q := fun w => decide (b < w))
    (fun x _ hx => by
      simp only [decide_eq_true_eq] at hx ⊢
      exact hba.trans hx)
    ha (by simp [hba]) (by simp)
  omega

/-- Strict rank decrease under a strictly smaller value, for the
ascending min-method rank. -/
theorem rankMinAsc_strict {α : Type} [LinearOrder α] {values : List α} {a b : α}
    (ha : a ∈ values) (hab : a < b) :
    rankMinAsc values a < rankMinAsc values b := by
  unfold rankMinAsc
  have h := countP_lt_countP (l := values)
    (p := fun w => decide (w < a)) (q := fun w => decide (w < b))
    (fun x _ hx => by
      simp only [decide_eq_true_eq] at hx ⊢
      exact hx.trans hab)
    ha (by simp [hab]) (by simp)
  omega

/-! ### C4: per-corner min-method descending ranking -/

/-- C4: for every working set of damper lengths and every pair of
member records, the per-corner rank column satisfies min-method
descending ranking: a strictly greater length gets a strictly smaller
rank, equal lengths get equal ranks, and the rank of a record is one
plus the number of records of strictly greater length. -/
theorem c4_rank_min_descending (values : List ℚ) (a b : ℚ)
    (ha : a ∈ values) (hb : b ∈ values) :
    (b < a → rankMinDesc values a < rankMinDesc values b) ∧
    (a = b → rankMinDesc values a = rankMinDesc values b) ∧
    rankMinDesc values a = 1 + values.countP (fun w => decide (a < w)) := by
  refine ⟨fun hba => rankMinDesc_strict ha hba, fun hab => by rw [hab], rfl⟩

/-- Witness for C4 at the working set [3, 1, 2]: the record of length 3
is ranked strictly better than the record of length 1, equal values
tie, and the count formula holds. -/
theorem c4_rank_min_descending_witness :
    (3 : ℚ) ∈ [(3 : ℚ), 1, 2] ∧ (1 : ℚ) ∈ [(3 : ℚ), 1, 2] ∧
    (rankMinDesc [(3 : ℚ), 1, 2] 3 < rankMinDesc [(3 : ℚ), 1, 2] 1) := by
  refine ⟨by simp, by simp, ?_⟩
  exact (c4_rank_min_descending [(3 : ℚ), 1, 2] 3 1 (by simp) (by simp)).1 (by norm_num)

/-! ### C5: rear weighted score and rear rank -/

/-- The LR rank of a rear row equals the LF rank of its mirror image in
front-row shape. -/
theorem lrRank_mirror (rows : List RearCalcRow) (r : RearCalcRow) :
    lrRankR rows r = lfRankF (rows.map rearToFront) (rearToFront r) := by
  unfold lrRankR lfRankF
  rw [List.map_map]
  rfl

/-- The RR rank of a rear row equals the RF rank of its mirror image. -/
theorem rrRank_mirror (rows : List RearCalcRow) (r : RearCalcRow) :
    rrRankR rows r = rfRankF (rows.map rearToFront) (rearToFront r) := by
  unfold rrRankR rfRankF
  rw [List.map_map]
  rfl

/-- The rear weighted score is the front weighted score of the mirror. -/
theorem rearWeightedScore_mirror (rows : List RearCalcRow) (r : RearCalcRow) :
    rearWeightedScoreR rows r = frontWeightedScoreF (rows.map rearToFront) (rearToFront r) := by
  unfold rearWeightedScoreR frontWeightedScoreF
  rw [lrRank_mirror, rrRank_mirror]

/-- C5 (amended): in dual-sheet mode the rear rollup over the rear
sheet mirrors the front rollup exactly: Rear_Weighted_Score is two
times LR_Rank plus one times RR_Rank, Rear_Rank is its ascending
min-method re-rank, both coincide with the front-side computation
applied to the mirrored rows, and a strictly smaller weighted score
yields a strictly smaller Rear_Rank. (Single-sheet mode computes no
per-record rear score; see the counterexample.) -/
theorem c5_rear_mirrors_front (rows : List RearCalcRow) (r : RearCalcRow) (hr : r ∈ rows) :
    rearWeightedScoreR rows r = 2 * lrRankR rows r + 1 * rrRankR rows r ∧
    rearRankR rows r
      = rankMinAsc (rows.map (rearWeightedScoreR rows)) (rearWeightedScoreR rows r) ∧
    rearWeightedScoreR rows r = frontWeightedScoreF (rows.map rearToFront) (rearToFront r) ∧
    rearRankR rows r = frontRankF (rows.map rearToFront) (rearToFront r) ∧
    (∀ r2 ∈ rows, rearWeightedScoreR rows r < rearWeightedScoreR rows r2 →
      rearRankR rows r < rearRankR rows r2) := by
  refine ⟨?_, rfl, rearWeightedScore_mirror rows r, ?_, ?_⟩
  · unfold rearWeightedScoreR
    omega
  · unfold rearRankR frontRankF
    rw [List.map_map]
    have hmap : rows.map (frontWeightedScoreF (rows.map rearToFront) ∘ rearToFront)
        = rows.map (rearWeightedScoreR rows) := by
      refine List.map_congr_left (fun x _ => ?_)
      exact (rearWeightedScore_mirror rows x).symm
    rw [hmap, rearWeightedScore_mirror rows r]
  · intro r2 _ hlt
    unfold rearRankR
    exact rankMinAsc_strict (List.mem_map_of_mem _ hr) hlt

/-- Counterexample to C5 as stated: in single-sheet mode no per-record
rear weighted score exists; the only Rear_Rank the code produces is the
center-section rollup of line 1018, the plain average of the mean LR
and RR ranks. On a two-record working set it takes the fractional value
3/2 for the first center section, while the claimed min-method re-rank
of the claimed weighted score 2 LR + 1 RR for that record is 2. -/
theorem c5_counterexample :
    centerRearRankSingle [⟨"A", "c1", 0, 0, 1, 2⟩, ⟨"B", "c2", 0, 0, 2, 1⟩] "A" = 3 / 2 ∧
    claimedRearRankS [⟨"A", "c1", 0, 0, 1, 2⟩, ⟨"B", "c2", 0, 0, 2, 1⟩]
      ⟨"A", "c1", 0, 0, 1, 2⟩ = 2 ∧
    ((3 : ℚ) / 2 ≠ ((2 : ℕ) : ℚ)) := by
  refine ⟨?_, by decide, by norm_num⟩
  have hfil : List.filter (fun r => r.centerSection == "A")
      [(⟨"A", "c1", 0, 0, 1, 2⟩ : SingleResultRow), ⟨"B", "c2", 0, 0, 2, 1⟩]
      = [⟨"A", "c1", 0, 0, 1, 2⟩] := by decide
  have h1 : lrRankS [(⟨"A", "c1", 0, 0, 1, 2⟩ : SingleResultRow), ⟨"B", "c2", 0, 0, 2, 1⟩]
      ⟨"A", "c1", 0, 0, 1, 2⟩ = 2 := by decide
  have h2 : rrRankS [(⟨"A", "c1", 0, 0, 1, 2⟩ : SingleResultRow), ⟨"B", "c2", 0, 0, 2, 1⟩]
      ⟨"A", "c1", 0, 0, 1, 2⟩ = 1 := by decide
  unfold centerRearRankSingle
  rw [hfil]
  simp only [List.map_cons, List.map_nil, h1, h2]
  norm_num [meanQ]

/-- Witness for C5 at a two-row rear sheet: the row of weighted score 4
out-ranks the row of weighted score 5. -/
theorem c5_rear_mirrors_front_witness :
    (⟨"B", "r2", 2, 1⟩ : RearCalcRow) ∈ [(⟨"A", "r1", 1, 2⟩ : RearCalcRow), ⟨"B", "r2", 2, 1⟩] ∧
    rearRankR [(⟨"A", "r1", 1, 2⟩ : RearCalcRow), ⟨"B", "r2", 2, 1⟩] ⟨"B", "r2", 2, 1⟩
      < rearRankR [(⟨"A", "r1", 1, 2⟩ : RearCalcRow), ⟨"B", "r2", 2, 1⟩] ⟨"A", "r1", 1, 2⟩ := by
  refine ⟨by simp, ?_⟩
  refine (c5_rear_mirrors_front _ _ (by simp)).2.2.2.2 ⟨"A", "r1", 1, 2⟩ (by simp) ?_
  norm_num [rearWeightedScoreR, lrRankR, rrRankR, rankMinDesc, List.countP, List.countP.go]

/-! ### C1: the normalize_z pre-pass -/

/-- In the multi-sheet branch the normalization pre-pass does what the
option promises: with the flag set, every LCA center z of all four
corner columns equals the single dataset-wide median of the raw z
values, installed before any lower mount is formed. -/
theorem multiCenters_normalize_z (fronts : List FrontRow) (rears : List RearRow) :
    let m := medianQ (multiAllZ (multiRawCenters fronts rears))
    (∀ p ∈ (multiCenters true fronts rears).lf, p.z = m) ∧
    (∀ p ∈ (multiCenters true fronts rears).rf, p.z = m) ∧
    (∀ p ∈ (multiCenters true fronts rears).lr, p.z = m) ∧
    (∀ p ∈ (multiCenters true fronts rears).rr, p.z = m) := by
  refine ⟨?_, ?_, ?_, ?_⟩ <;>
    · intro p hp
      simp only [multiCenters, if_pos] at hp
      rcases List.mem_map.mp hp with ⟨q, _, hq⟩
      rw [← hq]

/-- C1 evaluated at the failing input: a one-record single-sheet
working set whose RR LCA center z is 10 while the other three corner
centers sit at 0. The dataset-wide median z is 0, yet with normalize_z
set the single-sheet branch leaves the RR center z at 10 — the flag has
no effect at all in this branch, contradicting the claimed mode-
independent median pre-pass (and the unqualified promise of the
normalize checkbox of line 388). -/
theorem c1_normalize_z_single_sheet_failing :
    singleSheetCenters true
        [⟨"S", "C", ⟨0, 0, 0⟩, ⟨0, 0, 0⟩, ⟨0, 0, 0⟩, ⟨0, 0, 0⟩, ⟨0, 0, 0⟩, ⟨0, 0, 0⟩,
          ⟨0, 0, 0⟩, ⟨0, 0, 0⟩, ⟨0, 0, 0⟩, ⟨0, 0, 0⟩, ⟨0, 0, 10⟩, ⟨0, 0, 10⟩⟩]
      = singleSheetCenters false
        [⟨"S", "C", ⟨0, 0, 0⟩, ⟨0, 0, 0⟩, ⟨0, 0, 0⟩, ⟨0, 0, 0⟩, ⟨0, 0, 0⟩, ⟨0, 0, 0⟩,
          ⟨0, 0, 0⟩, ⟨0, 0, 0⟩, ⟨0, 0, 0⟩, ⟨0, 0, 0⟩, ⟨0, 0, 10⟩, ⟨0, 0, 10⟩⟩] ∧
    (singleRrCenter
        ⟨"S", "C", ⟨0, 0, 0⟩, ⟨0, 0, 0⟩, ⟨0, 0, 0⟩, ⟨0, 0, 0⟩, ⟨0, 0, 0⟩, ⟨0, 0, 0⟩,
          ⟨0, 0, 0⟩, ⟨0, 0, 0⟩, ⟨0, 0, 0⟩, ⟨0, 0, 0⟩, ⟨0, 0, 10⟩, ⟨0, 0, 10⟩⟩).z = 10 ∧
    medianQ (singleSheetAllZ
        [⟨"S", "C", ⟨0, 0, 0⟩, ⟨0, 0, 0⟩, ⟨0, 0, 0⟩, ⟨0, 0, 0⟩, ⟨0, 0, 0⟩, ⟨0, 0, 0⟩,
          ⟨0, 0, 0⟩, ⟨0, 0, 0⟩, ⟨0, 0, 0⟩, ⟨0, 0, 0⟩, ⟨0, 0, 10⟩, ⟨0, 0, 10⟩⟩]) = 0 ∧
    (10 : ℚ) ≠ 0 := by
  refine ⟨rfl, ?_, ?_, by norm_num⟩
  · norm_num [singleRrCenter, lcaCenter]
  · have hz : singleSheetAllZ
        [⟨"S", "C", ⟨0, 0, 0⟩, ⟨0, 0, 0⟩, ⟨0, 0, 0⟩, ⟨0, 0, 0⟩, ⟨0, 0, 0⟩, ⟨0, 0, 0⟩,
          ⟨0, 0, 0⟩, ⟨0, 0, 0⟩, ⟨0, 0, 0⟩, ⟨0, 0, 0⟩, ⟨0, 0, 10⟩, ⟨0, 0, 10⟩⟩]
        = [0, 0, 0, 10] := by
      norm_num [singleSheetAllZ, singleLfCenter, singleRfCenter, singleLrCenter,
        singleRrCenter, lcaCenter]
    rw [hz]
    norm_num [medianQ]

/-! ### C6: lower mount offset application -/

/-- C6: in both branches and for every corner, the lower mount is the
LCA center with y shifted by the absolute offset, minus for left
corners and plus for right corners, x and z untouched; and whenever the
configured offset is nonzero — whatever its input sign — the lower
mount y sits strictly outboard of the center y in the corner-determined
direction. -/
theorem c6_lower_mount_offsets (off : Offsets) (r : SingleRow) (normalizeLcaZ : Bool)
    (fronts : List FrontRow) (rears : List RearRow)
    (hlf : off.lf ≠ 0) (hrf : off.rf ≠ 0) (hlr : off.lr ≠ 0) (hrr : off.rr ≠ 0) :
    (singleLowerLF off r
        = ⟨(singleLfCenter r).x, (singleLfCenter r).y - |off.lf|, (singleLfCenter r).z⟩) ∧
    (singleLowerLF off r).y < (singleLfCenter r).y ∧
    (singleLowerRF off r
        = ⟨(singleRfCenter r).x, (singleRfCenter r).y + |off.rf|, (singleRfCenter r).z⟩) ∧
    (singleRfCenter r).y < (singleLowerRF off r).y ∧
    (singleLowerLR off r
        = ⟨(singleLrCenter r).x, (singleLrCenter r).y - |off.lr|, (singleLrCenter r).z⟩) ∧
    (singleLowerLR off r).y < (singleLrCenter r).y ∧
    (singleLowerRR off r
        = ⟨(singleRrCenter r).x, (singleRrCenter r).y + |off.rr|, (singleRrCenter r).z⟩) ∧
    (singleRrCenter r).y < (singleLowerRR off r).y ∧
    (multiLowerLF normalizeLcaZ fronts rears off
        = (multiCenters normalizeLcaZ fronts rears).lf.map
            (fun c => ⟨c.x, c.y - |off.lf|, c.z⟩)) ∧
    (∀ c ∈ (multiCenters normalizeLcaZ fronts rears).lf,
      (lowerMountLeft c off.lf).y < c.y) ∧
    (multiLowerRF normalizeLcaZ fronts rears off
        = (multiCenters normalizeLcaZ fronts rears).rf.map
            (fun c => ⟨c.x, c.y + |off.rf|, c.z⟩)) ∧
    (∀ c ∈ (multiCenters normalizeLcaZ fronts rears).rf,
      c.y < (lowerMountRight c off.rf).y) ∧
    (multiLowerLR normalizeLcaZ fronts rears off
        = (multiCenters normalizeLcaZ fronts rears).lr.map
            (fun c => ⟨c.x, c.y - |off.lr|, c.z⟩)) ∧
    (∀ c ∈ (multiCenters normalizeLcaZ fronts rears).lr,
      (lowerMountLeft c off.lr).y < c.y) ∧
    (multiLowerRR normalizeLcaZ fronts rears off
        = (multiCenters normalizeLcaZ fronts rears).rr.map
            (fun c => ⟨c.x, c.y + |off.rr|, c.z⟩)) ∧
    (∀ c ∈ (multiCenters normalizeLcaZ fronts rears).rr,
      c.y < (lowerMountRight c off.rr).y) := by
  have habs : ∀ q : ℚ, q ≠ 0 → 0 < |q| := fun q hq => abs_pos.mpr hq
  refine ⟨rfl, sub_lt_self _ (habs _ hlf), rfl, lt_add_of_pos_right _ (habs _ hrf),
    rfl, sub_lt_self _ (habs _ hlr), rfl, lt_add_of_pos_right _ (habs _ hrr),
    rfl, fun c _ => sub_lt_self _ (habs _ hlf), rfl, fun c _ => lt_add_of_pos_right _ (habs _ hrf),
    rfl, fun c _ => sub_lt_self _ (habs _ hlr), rfl, fun c _ => lt_add_of_pos_right _ (habs _ hrr)⟩

/-- Witness for C6 at a concrete record with offsets of mixed input
sign: the negative RF offset still moves the RF lower mount strictly
outboard (toward larger y). -/
theorem c6_lower_mount_offsets_witness :
    ((⟨1, -2, 3, -4⟩ : Offsets).rf ≠ 0) ∧
    (singleRfCenter
        ⟨"S", "C", ⟨0, 0, 0⟩, ⟨0, 0, 0⟩, ⟨0, 0, 0⟩, ⟨0, 0, 0⟩, ⟨0, 0, 0⟩, ⟨0, 0, 0⟩,
          ⟨0, 0, 0⟩, ⟨0, 0, 0⟩, ⟨0, 0, 0⟩, ⟨0, 0, 0⟩, ⟨0, 0, 0⟩, ⟨0, 0, 0⟩⟩).y
      < (singleLowerRF ⟨1, -2, 3, -4⟩
        ⟨"S", "C", ⟨0, 0, 0⟩, ⟨0, 0, 0⟩, ⟨0, 0, 0⟩, ⟨0, 0, 0⟩, ⟨0, 0, 0⟩, ⟨0, 0, 0⟩,
          ⟨0, 0, 0⟩, ⟨0, 0, 0⟩, ⟨0, 0, 0⟩, ⟨0, 0, 0⟩, ⟨0, 0, 0⟩, ⟨0, 0, 0⟩⟩).y := by
  refine ⟨by norm_num, ?_⟩
  exact (c6_lower_mount_offsets ⟨1, -2, 3, -4⟩ _ false [] []
    (by norm_num) (by norm_num) (by norm_num) (by norm_num)).2.2.2.1

/-! ### Optimizer lemmas -/

/-- Folding the strict-improvement update from an initial best yields a
final best that never worsens, bounds every scanned candidate from
below, and is either the untouched initial best or the first scanned
candidate attaining the final score. -/
theorem foldl_updBest_from_some (rest : List Cand) (b0 : Cand) :
    ∃ b, rest.foldl updBest (some b0) = some b ∧ b.score ≤ b0.score ∧
      (∀ c ∈ rest, b.score ≤ c.score) ∧
      (b = b0 ∨ (b.score < b0.score ∧
        rest.find? (fun c => decide (c.score ≤ b.score)) = some b)) := by
  induction rest generalizing b0 with
  | nil => exact ⟨b0, rfl, le_refl _, by simp, Or.inl rfl⟩
  | cons c t ih =>
    by_cases hc : c.score < b0.score
    · obtain ⟨b, hfold, hble, hall, hor⟩ := ih c
      refine ⟨b, ?_, le_of_lt (lt_of_le_of_lt hble hc), ?_, Or.inr ⟨lt_of_le_of_lt hble hc, ?_⟩⟩
      · simpa [updBest, hc] using hfold
      · intro x hx
        rcases List.mem_cons.mp hx with hxc | hxt
        · exact hxc ▸ hble
        · exact hall x hxt
      · rcases hor with hbc | ⟨hlt, hfind⟩
        · subst hbc
          rw [List.find?_cons_of_pos _ (by simp)]
        · rw [List.find?_cons_of_neg _ (by simp [not_le.mpr hlt]), hfind]
    · obtain ⟨b, hfold, hble, hall, hor⟩ := ih b0
      have hb0c : b0.score ≤ c.score := not_lt.mp hc
      refine ⟨b, ?_, hble, ?_, ?_⟩
      · simpa [updBest, hc] using hfold
      · intro x hx
        rcases List.mem_cons.mp hx with hxc | hxt
        · exact hxc ▸ le_trans hble hb0c
        · exact hall x hxt
      · rcases hor with hbb0 | ⟨hlt, hfind⟩
        · exact Or.inl hbb0
        · refine Or.inr ⟨hlt, ?_⟩
          rw [List.find?_cons_of_neg _ (by simp [not_le.mpr (lt_of_lt_of_le hlt hb0c)]), hfind]

/-- The fold that embeds the nested candidate loops returns the first
candidate of minimal score: the result bounds every candidate from
below and is the first list entry whose score reaches that bound. -/
theorem foldl_updBest_spec {L : List Cand} {b : Cand}
    (h : L.foldl updBest none = some b) :
    (∀ c ∈ L, b.score ≤ c.score) ∧
    L.find? (fun c => decide (c.score ≤ b.score)) = some b := by
  cases L with
  | nil => cases h
  | cons x t =>
    have hx : (x :: t).foldl updBest none = t.foldl updBest (some x) := rfl
    obtain ⟨b2, hfold, hble, hall, hor⟩ := foldl_updBest_from_some t x
    have hb2 : b2 = b := by
      rw [hx, hfold] at h
      exact Option.some.inj h
    subst hb2
    constructor
    · intro c hc
      rcases List.mem_cons.mp hc with hcx | hct
      · exact hcx ▸ hble
      · exact hall c hct
    · rcases hor with hbx | ⟨hlt, hfind⟩
      · subst hbx
        rw [List.find?_cons_of_pos _ (by simp)]
      · rw [List.find?_cons_of_neg _ (by simp [not_le.mpr hlt]), hfind]

/-- A successful best pair is a member of the candidate list. -/
theorem bestPairFor_mem {inp : OptInputs} {w : Weights} {cs : String}
    {usedF usedR : List String} {b : Cand}
    (h : bestPairFor inp w cs usedF usedR = some b) :
    b ∈ candList inp w cs usedF usedR :=
  List.mem_of_find?_eq_some (foldl_updBest_spec h).2

/-- Every candidate pairs an unused front clip of the front list with
an unused rear clip of the rear list. -/
theorem candList_mem_prop {inp : OptInputs} {w : Weights} {cs : String}
    {usedF usedR : List String} {c : Cand}
    (hc : c ∈ candList inp w cs usedF usedR) :
    c.front ∈ inp.frontClips ∧ usedF.contains c.front = false ∧
    c.rear ∈ inp.rearClips ∧ usedR.contains c.rear = false := by
  unfold candList at hc
  rcases List.mem_flatMap.mp hc with ⟨f, hf, hcf⟩
  cases hused : usedF.contains f with
  | true => rw [if_pos hused] at hcf; cases hcf
  | false =>
    rw [if_neg (by simpa using hused)] at hcf
    cases hlook : lookupRanks inp.frontTable cs f with
    | none => rw [hlook] at hcf; cases hcf
    | some p =>
      rw [hlook] at hcf
      obtain ⟨lfR, rfR⟩ := p
      rcases List.mem_filterMap.mp hcf with ⟨r, hr, hgr⟩
      cases husedR : usedR.contains r with
      | true => rw [if_pos husedR] at hgr; cases hgr
      | false =>
        rw [if_neg (by simpa using husedR)] at hgr
        cases hlookR : lookupRanks inp.rearTable cs r with
        | none => rw [hlookR] at hgr; cases hgr
        | some q =>
          rw [hlookR] at hgr
          obtain ⟨lrR, rrR⟩ := q
          cases hgr
          exact ⟨hf, hused, hr, husedR⟩

/-- When some clip of the list is unused, the fallback picks a clip of
the list that is indeed unused (the first such one). -/
theorem fallbackClip_fresh {clips used : List String}
    (h : ∃ c ∈ clips, used.contains c = false) :
    fallbackClip clips used ∈ clips ∧ used.contains (fallbackClip clips used) = false := by
  obtain ⟨c, hc, hcu⟩ := h
  have hmem : c ∈ clips.filter (fun x => !used.contains x) :=
    List.mem_filter.mpr ⟨hc, by simpa using hcu⟩
  unfold fallbackClip
  cases hfil : clips.filter (fun x => !used.contains x) with
  | nil => rw [hfil] at hmem; cases hmem
  | cons a t =>
    have ha : a ∈ clips.filter (fun x => !used.contains x) := by
      rw [hfil]; exact List.mem_cons_self a t
    have := List.mem_filter.mp ha
    exact ⟨this.1, by simpa using this.2⟩

/-- When every clip of the list is used, the fallback returns the first
clip of the list, a clip that is necessarily reused. -/
theorem fallbackClip_exhausted {clips used : List String}
    (h : ∀ c ∈ clips, used.contains c = true) :
    fallbackClip clips used = clips.headD "" := by
  have hfil : clips.filter (fun x => !used.contains x) = [] := by
    rw [List.filter_eq_nil_iff]
    intro a ha
    simpa using h a ha
  unfold fallbackClip
  rw [hfil]

/-- Pigeonhole over a duplicate-free clip list: fewer used entries than
clips leaves an unused clip. -/
theorem exists_unused {clips used : List String} (hnd : clips.Nodup)
    (hlen : used.length < clips.length) :
    ∃ c ∈ clips, used.contains c = false := by
  by_contra h
  push_neg at h
  have hsub : clips ⊆ used := by
    intro c hc
    have := h c hc
    have hct : used.contains c = true := by
      cases hcu : used.contains c with
      | false => exact absurd hcu this
      | true => rfl
    simpa using hct
  have := (List.subperm_of_subset hnd hsub).length_le
  omega

/-- Reduction of the step when the nested loops found a best pair:
the commit is guarded by the truthiness test. -/
theorem stepCenter_eq_some {inp : OptInputs} {w : Weights} {st : OptState} {cs : String}
    {b : Cand} (hbest : bestPairFor inp w cs st.usedFront st.usedRear = some b) :
    stepCenter inp w st cs
      = if b.front ≠ "" ∧ b.rear ≠ "" then
          { combos := st.combos ++ [⟨cs, b.front, b.rear, some b.score⟩]
            usedFront := st.usedFront ++ [b.front]
            usedRear := st.usedRear ++ [b.rear] }
        else fallbackStep inp st cs := by
  unfold stepCenter
  rw [hbest]

/-- Reduction of the step when no candidate exists at all. -/
theorem stepCenter_eq_none {inp : OptInputs} {w : Weights} {st : OptState} {cs : String}
    (hbest : bestPairFor inp w cs st.usedFront st.usedRear = none) :
    stepCenter inp w st cs = fallbackStep inp st cs := by
  unfold stepCenter
  rw [hbest]

/-- Each processed center section appends exactly one combo entry for
that section and one entry to each used set; under available capacity
(duplicate-free clip lists longer than the used sets) the committed
clips are fresh members of their clip lists. -/
theorem stepCenter_fresh (inp : OptInputs) (w : Weights) (st : OptState) (cs : String)
    (hfnd : inp.frontClips.Nodup) (hrnd : inp.rearClips.Nodup)
    (hflen : st.usedFront.length < inp.frontClips.length)
    (hrlen : st.usedRear.length < inp.rearClips.length) :
    ∃ f r sc, stepCenter inp w st cs
        = ⟨st.combos ++ [⟨cs, f, r, sc⟩], st.usedFront ++ [f], st.usedRear ++ [r]⟩ ∧
      st.usedFront.contains f = false ∧ st.usedRear.contains r = false ∧
      f ∈ inp.frontClips ∧ r ∈ inp.rearClips := by
  have hfallback : ∃ f r sc, fallbackStep inp st cs
      = ⟨st.combos ++ [⟨cs, f, r, sc⟩], st.usedFront ++ [f], st.usedRear ++ [r]⟩ ∧
      st.usedFront.contains f = false ∧ st.usedRear.contains r = false ∧
      f ∈ inp.frontClips ∧ r ∈ inp.rearClips := by
    have hf := fallbackClip_fresh (exists_unused hfnd hflen)
    have hr := fallbackClip_fresh (exists_unused hrnd hrlen)
    exact ⟨_, _, none, rfl, hf.2, hr.2, hf.1, hr.1⟩
  cases hbest : bestPairFor inp w cs st.usedFront st.usedRear with
  | none => rw [stepCenter_eq_none hbest]; exact hfallback
  | some b =>
    rw [stepCenter_eq_some hbest]
    by_cases htruthy : b.front ≠ "" ∧ b.rear ≠ ""
    · rw [if_pos htruthy]
      have hprop := candList_mem_prop (bestPairFor_mem hbest)
      exact ⟨b.front, b.rear, some b.score, rfl, hprop.2.1, hprop.2.2.2, hprop.1, hprop.2.2.1⟩
    · rw [if_neg htruthy]
      exact hfallback

/-- Without capacity hypotheses, each step still appends exactly one
combo for the processed section and exactly one entry per used set. -/
theorem stepCenter_shape (inp : OptInputs) (w : Weights) (st : OptState) (cs : String) :
    ∃ f r sc, stepCenter inp w st cs
        = ⟨st.combos ++ [⟨cs, f, r, sc⟩], st.usedFront ++ [f], st.usedRear ++ [r]⟩ := by
  cases hbest : bestPairFor inp w cs st.usedFront st.usedRear with
  | none => rw [stepCenter_eq_none hbest]; exact ⟨_, _, none, rfl⟩
  | some b =>
    rw [stepCenter_eq_some hbest]
    by_cases htruthy : b.front ≠ "" ∧ b.rear ≠ ""
    · rw [if_pos htruthy]
      exact ⟨b.front, b.rear, some b.score, rfl⟩
    · rw [if_neg htruthy]
      exact ⟨_, _, none, rfl⟩

/-- The run commits exactly one entry per center section, in the
iteration order of the center-section list. -/
theorem foldl_stepCenter_centers (inp : OptInputs) (w : Weights) :
    ∀ (centers : List String) (st : OptState),
    ((centers.foldl (stepCenter inp w) st).combos).map Combo.center
      = st.combos.map Combo.center ++ centers := by
  intro centers
  induction centers with
  | nil => intro st; simp
  | cons cs t ih =>
    intro st
    obtain ⟨f, r, sc, hstep⟩ := stepCenter_shape inp w st cs
    rw [List.foldl_cons, hstep, ih]
    simp

/-- Invariant preservation for the whole run: the used sets are exactly
the committed clip columns, and they stay duplicate-free as long as
enough clips remain on each axle. -/
theorem foldl_stepCenter_inv (inp : OptInputs) (w : Weights)
    (hfnd : inp.frontClips.Nodup) (hrnd : inp.rearClips.Nodup) :
    ∀ (centers : List String) (st : OptState),
    st.usedFront = st.combos.map Combo.frontClip →
    st.usedRear = st.combos.map Combo.rearClip →
    st.usedFront.Nodup → st.usedRear.Nodup →
    st.usedFront.length + centers.length ≤ inp.frontClips.length →
    st.usedRear.length + centers.length ≤ inp.rearClips.length →
    ((centers.foldl (stepCenter inp w) st).usedFront
        = (centers.foldl (stepCenter inp w) st).combos.map Combo.frontClip) ∧
    ((centers.foldl (stepCenter inp w) st).usedRear
        = (centers.foldl (stepCenter inp w) st).combos.map Combo.rearClip) ∧
    (centers.foldl (stepCenter inp w) st).usedFront.Nodup ∧
    (centers.foldl (stepCenter inp w) st).usedRear.Nodup := by
  intro centers
  induction centers with
  | nil => intro st h1 h2 h3 h4 _ _; exact ⟨h1, h2, h3, h4⟩
  | cons cs t ih =>
    intro st h1 h2 h3 h4 h5 h6
    simp only [List.length_cons] at h5 h6
    obtain ⟨f, r, sc, hstep, hcf, hcr, _, _⟩ :=
      stepCenter_fresh inp w st cs hfnd hrnd (by omega) (by omega)
    have hfm : f ∉ st.usedFront := by simpa using hcf
    have hrm : r ∉ st.usedRear := by simpa using hcr
    rw [List.foldl_cons, hstep]
    apply ih
    · simp [h1]
    · simp [h2]
    · simp [List.nodup_append, h3, hfm]
    · simp [List.nodup_append, h4, hrm]
    · simp only [List.length_append, List.length_singleton]; omega
    · simp only [List.length_append, List.length_singleton]; omega

/-- Clips committed through the candidate search are never clips that
an earlier section already holds: along the run, any later combo whose
score field is finite uses a front clip and a rear clip different from
those of every earlier combo. -/
theorem foldl_stepCenter_pairwise (inp : OptInputs) (w : Weights) :
    ∀ (centers : List String) (st : OptState),
    st.usedFront = st.combos.map Combo.frontClip →
    st.usedRear = st.combos.map Combo.rearClip →
    List.Pairwise (fun c1 c2 => c2.score.isSome = true →
      c2.frontClip ≠ c1.frontClip ∧ c2.rearClip ≠ c1.rearClip) st.combos →
    List.Pairwise (fun c1 c2 => c2.score.isSome = true →
      c2.frontClip ≠ c1.frontClip ∧ c2.rearClip ≠ c1.rearClip)
      (centers.foldl (stepCenter inp w) st).combos := by
  intro centers
  induction centers with
  | nil => intro st _ _ hp; exact hp
  | cons cs t ih =>
    intro st h1 h2 hp
    rw [List.foldl_cons]
    cases hbest : bestPairFor inp w cs st.usedFront st.usedRear with
    | none =>
      rw [stepCenter_eq_none hbest]
      apply ih <;> try (simp [fallbackStep, h1, h2])
      rw [List.pairwise_append]
      exact ⟨hp, by simp, by simp⟩
    | some b =>
      rw [stepCenter_eq_some hbest]
      by_cases htruthy : b.front ≠ "" ∧ b.rear ≠ ""
      · rw [if_pos htruthy]
        have hprop := candList_mem_prop (bestPairFor_mem hbest)
        have hfm : b.front ∉ st.combos.map Combo.frontClip := by
          rw [← h1]; simpa using hprop.2.1
        have hrm : b.rear ∉ st.combos.map Combo.rearClip := by
          rw [← h2]; simpa using hprop.2.2.2
        apply ih <;> try (simp [h1, h2])
        rw [List.pairwise_append]
        refine ⟨hp, by simp, ?_⟩
        intro a ha c hc
        simp only [List.mem_singleton] at hc
        subst hc
        intro _
        constructor
        · intro hfeq
          apply hfm
          have hba : b.front = a.frontClip := by simpa using hfeq
          rw [hba]
          exact List.mem_map_of_mem Combo.frontClip ha
        · intro hreq
          apply hrm
          have hba : b.rear = a.rearClip := by simpa using hreq
          rw [hba]
          exact List.mem_map_of_mem Combo.rearClip ha
      · rw [if_neg htruthy]
        apply ih <;> try (simp [fallbackStep, h1, h2])
        rw [List.pairwise_append]
        exact ⟨hp, by simp, by simp⟩

/-! ### C2: committed pair minimizes the weighted score -/

/-- C2 (amended): for every center section processed with the current
used sets, when the nested loops find a best pair and both its clip
names are truthy (non-empty, as the Python guard demands), the step
commits exactly that pair, the pair is a candidate - an unused front
clip and unused rear clip with rank data at this section - its score
bounds every candidate from below, and it is the first candidate in
nested iteration order attaining that bound (first-seen wins ties). A
falsy clip name instead routes to the fallback; see the
counterexample. -/
theorem c2_committed_pair_minimal (inp : OptInputs) (w : Weights) (st : OptState)
    (cs : String) (b : Cand)
    (hb : bestPairFor inp w cs st.usedFront st.usedRear = some b)
    (hf : b.front ≠ "") (hr : b.rear ≠ "") :
    stepCenter inp w st cs
      = ⟨st.combos ++ [⟨cs, b.front, b.rear, some b.score⟩],
         st.usedFront ++ [b.front], st.usedRear ++ [b.rear]⟩ ∧
    b ∈ candList inp w cs st.usedFront st.usedRear ∧
    (∀ c ∈ candList inp w cs st.usedFront st.usedRear, b.score ≤ c.score) ∧
    (candList inp w cs st.usedFront st.usedRear).find?
      (fun c => decide (c.score ≤ b.score)) = some b := by
  have hspec := foldl_updBest_spec (L := candList inp w cs st.usedFront st.usedRear) hb
  refine ⟨?_, bestPairFor_mem hb, hspec.1, hspec.2⟩
  rw [stepCenter_eq_some hb, if_pos ⟨hf, hr⟩]

/-- Counterexample to C2 as stated: with a front clip whose identifier
is the empty string, the truthiness guard of the commit test rejects
the found best pair. The unique candidate at section S pairs the empty
front clip with R2, yet the committed entry pairs it with R1 (the first
unused rear clip, chosen by the fallback, with the infinite-score
sentinel): the committed pair is not a candidate and does not minimize
the weighted score. -/
theorem c2_counterexample :
    calculateOptimalAssignments exInpEmptyName wQuarter = [⟨"S", "", "R1", none⟩] ∧
    (candList exInpEmptyName wQuarter "S" [] []).map (fun c => (c.front, c.rear))
      = [("", "R2")] ∧
    (("", "R1") : String × String) ≠ ("", "R2") := by
  exact ⟨by decide, by decide, by decide⟩

/-- Witness for C2 on a run whose inner loops must compare two
candidate scores: the best pair F2/R1 is committed for section S. -/
theorem c2_committed_pair_minimal_witness :
    bestPairFor exInpTwoFronts wQuarter "S" [] [] = some ⟨"F2", "R1", 1⟩ ∧
    ("F2" : String) ≠ "" ∧ ("R1" : String) ≠ "" ∧
    (stepCenter exInpTwoFronts wQuarter ⟨[], [], []⟩ "S").combos
      = [⟨"S", "F2", "R1", some 1⟩] := by
  have hb : bestPairFor exInpTwoFronts wQuarter "S" [] [] = some ⟨"F2", "R1", 1⟩ := by
    norm_num [exInpTwoFronts, wQuarter, bestPairFor, candList, lookupRanks, updBest,
      comboScore, List.foldl, List.flatMap, List.filterMap, List.find?]
  refine ⟨hb, by decide, by decide, ?_⟩
  have hstep := (c2_committed_pair_minimal exInpTwoFronts wQuarter ⟨[], [], []⟩ "S"
    ⟨"F2", "R1", 1⟩ hb (by decide) (by decide)).1
  rw [hstep]
  rfl

/-! ### C3: no clip reuse in one optimizer run -/

/-- C3 (amended): in a single optimizer run with no manual overrides,
no front clip identifier and no rear clip identifier appears in more
than one entry of the assignment, provided each axle offers at least as
many distinct clips as there are center sections, so the fallback never
runs out. (When an axle is exhausted the fallback deliberately reuses
the first clip of the sorted list; see the counterexample.) -/
theorem c3_no_reuse (inp : OptInputs) (w : Weights)
    (hfnd : inp.frontClips.Nodup) (hrnd : inp.rearClips.Nodup)
    (hflen : inp.centerSections.length ≤ inp.frontClips.length)
    (hrlen : inp.centerSections.length ≤ inp.rearClips.length) :
    ((calculateOptimalAssignments inp w).map Combo.frontClip).Nodup ∧
    ((calculateOptimalAssignments inp w).map Combo.rearClip).Nodup := by
  have h := foldl_stepCenter_inv inp w hfnd hrnd inp.centerSections ⟨[], [], []⟩
    rfl rfl (by simp) (by simp) (by simpa) (by simpa)
  unfold calculateOptimalAssignments
  exact ⟨h.1 ▸ h.2.2.1, h.2.1 ▸ h.2.2.2⟩

/-- Counterexample to C3 as stated: with two center sections but a
single clip per axle, the second section exhausts both axles and the
fallback reuses clip F and clip R, which then appear in two entries. -/
theorem c3_counterexample :
    (calculateOptimalAssignments exInpScarce wQuarter).map Combo.frontClip = ["F", "F"] ∧
    (calculateOptimalAssignments exInpScarce wQuarter).map Combo.rearClip = ["R", "R"] ∧
    ¬ ((calculateOptimalAssignments exInpScarce wQuarter).map Combo.frontClip).Nodup := by
  exact ⟨by decide, by decide, by decide⟩

/-- Witness for C3: two sections, two clips per axle, no reuse. -/
theorem c3_no_reuse_witness :
    exInpAmple.frontClips.Nodup ∧ exInpAmple.rearClips.Nodup ∧
    exInpAmple.centerSections.length ≤ exInpAmple.frontClips.length ∧
    exInpAmple.centerSections.length ≤ exInpAmple.rearClips.length ∧
    ((calculateOptimalAssignments exInpAmple wQuarter).map Combo.frontClip).Nodup := by
  refine ⟨by decide, by decide, by decide, by decide, ?_⟩
  exact (c3_no_reuse exInpAmple wQuarter (by decide) (by decide) (by decide) (by decide)).1

/-! ### C7: the weight-sum gate -/

/-- C7 (amended): a Calculate press is refused exactly by the 0.01
tolerance test of line 1709: whenever the four weight inputs differ
from a sum of 100 by more than 0.01 - in particular at sums 99 and 101
- the button is rendered disabled, so no recomputation can fire, the
weights are neither saved nor renormalized, and the previous assignment
map is untouched. (A non-100 sum inside the tolerance band is NOT
refused; see the counterexample.) -/
theorem c7_weight_sum_gate (inp : OptInputs) (st : SelectorState) (lf rf lr rr : ℚ)
    (h : |lf + rf + lr + rr - 100| > 1 / 100) :
    clickCalculate inp st lf rf lr rr = st := by
  unfold clickCalculate
  rw [if_pos h]

/-- Counterexample to C7 as stated: the weight inputs 25/25/25/24.995
sum to 99.995, which is not 100, yet the 0.01-tolerance gate of line
1709 lets the press through: the optimizer run executes, the weights
are saved exactly as entered (not renormalized), and the prior
assignment map is replaced - the run is not refused. -/
theorem c7_counterexample :
    (25 : ℚ) + 25 + 25 + 4999 / 200 ≠ 100 ∧
    clickCalculate exInpTwoFronts ⟨⟨25, 25, 25, 25⟩, []⟩ 25 25 25 (4999 / 200)
      = ⟨⟨25, 25, 25, 4999 / 200⟩,
         calculateOptimalAssignments exInpTwoFronts ⟨25, 25, 25, 4999 / 200⟩⟩ ∧
    clickCalculate exInpTwoFronts ⟨⟨25, 25, 25, 25⟩, []⟩ 25 25 25 (4999 / 200)
      ≠ ⟨⟨25, 25, 25, 25⟩, []⟩ := by
  have hrun : clickCalculate exInpTwoFronts ⟨⟨25, 25, 25, 25⟩, []⟩ 25 25 25 (4999 / 200)
      = ⟨⟨25, 25, 25, 4999 / 200⟩,
         calculateOptimalAssignments exInpTwoFronts ⟨25, 25, 25, 4999 / 200⟩⟩ := by
    unfold clickCalculate
    rw [if_neg (by norm_num [abs_le])]
  refine ⟨by norm_num, hrun, ?_⟩
  rw [hrun]
  intro h
  have hw : (⟨25, 25, 25, 4999 / 200⟩ : Weights) = ⟨25, 25, 25, 25⟩ :=
    congrArg SelectorState.cornerWeights h
  have hrr : (4999 / 200 : ℚ) = 25 := congrArg Weights.rr hw
  norm_num at hrr

/-- Witness for C7 at weights 25/25/25/24 (sum 99, beyond the
tolerance), with a nonempty prior assignment left exactly in place. -/
theorem c7_weight_sum_gate_witness :
    |(25 : ℚ) + 25 + 25 + 24 - 100| > 1 / 100 ∧
    clickCalculate exInpTwoFronts ⟨⟨25, 25, 25, 25⟩, [⟨"S", "F2", "R1", some 1⟩]⟩
        25 25 25 24
      = ⟨⟨25, 25, 25, 25⟩, [⟨"S", "F2", "R1", some 1⟩]⟩ := by
  refine ⟨by norm_num, ?_⟩
  exact c7_weight_sum_gate exInpTwoFronts _ 25 25 25 24 (by norm_num)

/-! ### C9: assignment determinism and statelessness -/

/-- C9: when the gate passes, the recomputed assignments are a function
of the optimizer inputs and the entered weights alone: two presses from
arbitrarily different prior session states produce identical assignment
maps, each equal to the from-scratch run of
calculate_optimal_assignments, which starts from empty used sets. -/
theorem c9_determinism (inp : OptInputs) (st1 st2 : SelectorState) (lf rf lr rr : ℚ)
    (hgate : |lf + rf + lr + rr - 100| ≤ 1 / 100) :
    (clickCalculate inp st1 lf rf lr rr).lineupAssignments
      = (clickCalculate inp st2 lf rf lr rr).lineupAssignments ∧
    (clickCalculate inp st1 lf rf lr rr).lineupAssignments
      = calculateOptimalAssignments inp ⟨lf, rf, lr, rr⟩ := by
  unfold clickCalculate
  rw [if_neg (not_lt.mpr hgate), if_neg (not_lt.mpr hgate)]
  exact ⟨rfl, rfl⟩

/-- Witness for C9: two very different prior states, weights summing to
exactly 100, identical resulting assignments. -/
theorem c9_determinism_witness :
    |(25 : ℚ) + 25 + 25 + 25 - 100| ≤ 1 / 100 ∧
    (clickCalculate exInpTwoFronts ⟨⟨0, 0, 0, 0⟩, []⟩ 25 25 25 25).lineupAssignments
      = (clickCalculate exInpTwoFronts ⟨⟨9, 9, 9, 9⟩, [⟨"X", "F9", "R9", none⟩]⟩
          25 25 25 25).lineupAssignments := by
  refine ⟨by norm_num, ?_⟩
  exact (c9_determinism exInpTwoFronts ⟨⟨0, 0, 0, 0⟩, []⟩
    ⟨⟨9, 9, 9, 9⟩, [⟨"X", "F9", "R9", none⟩]⟩ 25 25 25 25 (by norm_num)).1

/-! ### C10: iteration order, contested clips and fallback reuse -/

/-- C10: the center-section and clip lists fed to the optimizer are the
ascending sorted deduplications of their columns, so sections are
processed in ascending identifier order and clips tried in ascending
identifier order; one entry is committed per section in that order; a
later entry committed through the candidate search (finite score) never
repeats the front or rear clip of any earlier entry - the earlier,
smaller-identifier section keeps a contested clip; and when every clip
of an axle is already used, the fallback returns the first clip of the
sorted list (its minimum), reusing it. -/
theorem c10_iteration_order (l : List String) (inp : OptInputs) (w : Weights)
    (clips used : List String) (hne : clips ≠ [])
    (hall : ∀ c ∈ clips, used.contains c = true)
    (hs : List.Sorted (· ≤ ·) clips) :
    List.Sorted (· ≤ ·) (sortedUnique l) ∧ (sortedUnique l).Nodup ∧
    (calculateOptimalAssignments inp w).map Combo.center = inp.centerSections ∧
    List.Pairwise (fun c1 c2 => c2.score.isSome = true →
      c2.frontClip ≠ c1.frontClip ∧ c2.rearClip ≠ c1.rearClip)
      (calculateOptimalAssignments inp w) ∧
    fallbackClip clips used = clips.headD "" ∧
    clips.headD "" ∈ clips ∧ used.contains (clips.headD "") = true ∧
    (∀ x ∈ clips, clips.headD "" ≤ x) := by
  have hhead : clips.headD "" ∈ clips := by
    cases clips with
    | nil => exact absurd rfl hne
    | cons c t => exact List.mem_cons_self c t
  refine ⟨List.sorted_insertionSort _ _, ?_, ?_, ?_, fallbackClip_exhausted hall,
    hhead, hall _ hhead, ?_⟩
  · exact (List.perm_insertionSort _ _).symm.nodup (List.nodup_dedup l)
  · simpa using foldl_stepCenter_centers inp w inp.centerSections ⟨[], [], []⟩
  · exact foldl_stepCenter_pairwise inp w inp.centerSections ⟨[], [], []⟩
      rfl rfl (by simp)
  · cases clips with
    | nil => exact absurd rfl hne
    | cons c t =>
      intro x hx
      rcases List.mem_cons.mp hx with hxc | hxt
      · exact hxc ▸ le_refl c
      · exact (List.sorted_cons.mp hs).1 x hxt

/-- Witness for C10: a concrete unsorted column with a duplicate, a
concrete two-section run, and a concrete exhausted axle whose fallback
returns the sorted-first clip. -/
theorem c10_iteration_order_witness :
    (["A", "B"] : List String) ≠ [] ∧
    (∀ c ∈ (["A", "B"] : List String), (["B", "A"] : List String).contains c = true) ∧
    List.Sorted (· ≤ ·) (["A", "B"] : List String) ∧
    sortedUnique ["B", "A", "B"] = ["A", "B"] ∧
    fallbackClip ["A", "B"] ["B", "A"] = (["A", "B"] : List String).headD "" := by
  have hs : List.Sorted (· ≤ ·) (["A", "B"] : List String) := by
    simp only [List.sorted_cons, List.mem_singleton, List.mem_cons]
    refine ⟨?_, by simp⟩
    intro b hb
    rcases hb with hb | hb
    · subst hb
      rw [String.le_iff_toList_le]
      decide
    · cases hb
  refine ⟨by decide, by decide, hs, ?_, ?_⟩
  · simp [sortedUnique, List.insertionSort, List.orderedInsert, List.dedup]
    decide
  · exact (c10_iteration_order ["B", "A", "B"]
      ⟨[], [], [], [], []⟩ wQuarter ["A", "B"] ["B", "A"]
      (by decide) (by decide) hs).2.2.2.2.1

/-! ### C8: empty inner join aborts the recompute -/

/-- C8: when the inner join of front and rear records on center-section
identity yields zero rows, the multi-sheet recompute surfaces a fatal
error and halts before line 670: no ranked result set is produced and
the previously stored ranked working set, whatever it was, is left
exactly as it was. -/
theorem c8_empty_join_aborts (sess : Session) (fronts : List FrontCalcRow)
    (rears : List RearCalcRow) (hempty : mergeOnCenter fronts rears = []) :
    recomputeMultiMerge sess fronts rears
      = ({ sess with dfFrontCalc := some fronts, dfRearCalc := some rears },
         some "No matching Center Sections found between front and rear sheets!") ∧
    (recomputeMultiMerge sess fronts rears).1.resultsDf = sess.resultsDf ∧
    (recomputeMultiMerge sess fronts rears).2.isSome = true := by
  have hgoal : recomputeMultiMerge sess fronts rears
      = ({ sess with dfFrontCalc := some fronts, dfRearCalc := some rears },
         some "No matching Center Sections found between front and rear sheets!") := by
    unfold recomputeMultiMerge
    rw [hempty]
    rfl
  rw [hgoal]
  exact ⟨rfl, rfl, rfl⟩

/-- Witness for C8: a front sheet keyed only by center section A and a
rear sheet keyed only by center section B join to zero rows; the prior
ranked working set survives the aborted recompute untouched. -/
theorem c8_empty_join_aborts_witness :
    mergeOnCenter [⟨"A", "F1", 1, 1⟩] [⟨"B", "R1", 1, 1⟩] = [] ∧
    (recomputeMultiMerge
        ⟨some [⟨"A", "F0", "R0", 5, 5, 5, 5⟩], none, none⟩
        [⟨"A", "F1", 1, 1⟩] [⟨"B", "R1", 1, 1⟩]).1.resultsDf
      = some [⟨"A", "F0", "R0", 5, 5, 5, 5⟩] := by
  refine ⟨by decide, ?_⟩
  exact (c8_empty_join_aborts ⟨some [⟨"A", "F0", "R0", 5, 5, 5, 5⟩], none, none⟩
    [⟨"A", "F1", 1, 1⟩] [⟨"B", "R1", 1, 1⟩] (by decide)).2.1

end TrkChassis
